import Mathlib

/-!
Verification of the aurora-relayer block-indexing pipeline and log-filter
query layer, as a shallow embedding of `src/indexer.ts`, `src/topics.js`
and `src/servers/database.ts`.

Digests (block hashes, topic digests, transaction hashes) are modelled as
`Nat` values; distinct digests correspond to distinct naturals.  Database
rows whose content is irrelevant to the claims are likewise modelled as
opaque `Nat` values.
-/

/-! ## JavaScript numeric model

The TypeScript code parses filter ids and block specifiers with
`parseInt(s, 16)`, which returns an IEEE-754 double.  `jsParseIntHex`
follows the ECMAScript `parseInt` algorithm for radix 16: trim whitespace,
read an optional sign, strip an optional `0x`/`0X`, take the longest
prefix of hex digits (`NaN`, i.e. `none`, when there is none), and round
the mathematical value to double precision (round to nearest, ties to
even, exact below `2 ^ 53`). -/

def isJsWhitespace (c : Char) : Bool :=
  c = ' ' || c = '\t' || c = '\n' || c = '\r' || c = '\x0b' || c = '\x0c'

def hexDigitVal (c : Char) : Option Nat :=
  if '0' ≤ c ∧ c ≤ '9' then some (c.toNat - '0'.toNat)
  else if 'a' ≤ c ∧ c ≤ 'f' then some (c.toNat - 'a'.toNat + 10)
  else if 'A' ≤ c ∧ c ≤ 'F' then some (c.toNat - 'A'.toNat + 10)
  else none

def trimChars (l : List Char) : List Char :=
  ((l.dropWhile isJsWhitespace).reverse.dropWhile isJsWhitespace).reverse

def splitSign : List Char → Bool × List Char
  | '-' :: rest => (true, rest)
  | '+' :: rest => (false, rest)
  | l => (false, l)

def strip0x : List Char → List Char
  | '0' :: 'x' :: rest => rest
  | '0' :: 'X' :: rest => rest
  | l => l

def takeHexDigits : List Char → List Nat
  | [] => []
  | c :: rest =>
    match hexDigitVal c with
    | some v => v :: takeHexDigits rest
    | none => []

def hexVal (ds : List Nat) : Nat := ds.foldl (fun a d => 16 * a + d) 0

def bitsAux : Nat → Nat → Nat
  | 0, _ => 0
  | fuel + 1, n => if n = 0 then 0 else bitsAux fuel (n / 2) + 1

def bits (n : Nat) : Nat := bitsAux n n

def roundToDouble (n : Nat) : Nat :=
  if n < 2 ^ 53 then n
  else
    let k := bits n - 53
    let q := n / 2 ^ k
    let r := n % 2 ^ k
    let half := 2 ^ (k - 1)
    let q2 := if half < r ∨ (r = half ∧ q % 2 = 1) then q + 1 else q
    q2 * 2 ^ k

def jsParseIntHex (s : String) : Option Int :=
  let l := trimChars s.data
  let sr := splitSign l
  let ds := takeHexDigits (strip0x sr.2)
  if ds.isEmpty then none
  else
    let v : Nat := roundToDouble (hexVal ds)
    some (if sr.1 then -(v : Int) else (v : Int))

/-- Modelled from the spec: the quantity encoder `intToHex` lives in the
external `@aurora-is-near/engine` package; spec section 6 fixes its format
as a `0x`-prefixed big-endian hex string with no leading zero (zero itself
is `0x0`).  `natToHex` renders a natural in that format; the recursion is
fuel-based (fuel `n + 1` bounds the digit count) so it evaluates by
kernel reduction. -/
def natToHexDigitChar (d : Nat) : Char :=
  if d < 10 then Char.ofNat ('0'.toNat + d) else Char.ofNat ('a'.toNat + d - 10)

def natToHexDigitsAux : Nat → Nat → List Char
  | 0, _ => []
  | fuel + 1, n =>
    if n < 16 then [natToHexDigitChar n]
    else natToHexDigitsAux fuel (n / 16) ++ [natToHexDigitChar (n % 16)]

def natToHexDigits (n : Nat) : List Char := natToHexDigitsAux (n + 1) n

def natToHex (n : Nat) : String := String.mk ('0' :: 'x' :: natToHexDigits n)

/-- Digit values (base 16, most significant first) of `n`, with the same
fuel discipline as `natToHexDigitsAux`; used to relate the encoder to
the parser. -/
def natToHexValsAux : Nat → Nat → List Nat
  | 0, _ => []
  | fuel + 1, n =>
    if n < 16 then [n]
    else natToHexValsAux fuel (n / 16) ++ [n % 16]

/-! ## Block-spec resolution (`resolveBlockSpec`, database.ts:348-364)

`latestBlockID` is the store's current maximum block height; an absent
(`undefined`) or `null` specifier is modelled as `none`.  A thrown
`Error('invalid block ID: ...')` is modelled as `Except.error`. -/

def resolveBlockSpec (latestBlockID : Int) (blockSpec : Option String) : Except String Int :=
  match blockSpec with
  | none => Except.ok latestBlockID
  | some spec =>
    if spec = "earliest" then Except.ok 0
    else if spec = "latest" then Except.ok latestBlockID
    else if spec = "pending" then Except.ok latestBlockID
    else
      match jsParseIntHex spec with
      | none => Except.error ("invalid block ID: " ++ spec)
      | some blockID => Except.ok blockID

/-! ## Topic compiler (`compileTopics`, topics.js:197-221)

A filter position is `null` (wildcard), a single digest string, or an
array of candidate digests (entries of which may again be `null`; the
code drops those).  The compiled result is the operand list of the
outer `sql.and(...)`; each operand is either a single `sql.eq` on the
event's 1-based topic slot, or a `sql.or(...)` of such equalities.
`compileTopics` returns `none` exactly where the code returns `null`
(absent or empty filter). -/

inductive TopicPos where
  | wildcard
  | single (d : Nat)
  | list (ds : List (Option Nat))
deriving DecidableEq

structure TopicEq where
  slot : Nat
  digest : Nat
deriving DecidableEq

inductive TopicClause where
  | eq (e : TopicEq)
  | anyOf (es : List TopicEq)
deriving DecidableEq

def compilePos (i : Nat) : TopicPos → List TopicClause
  | TopicPos.wildcard => []
  | TopicPos.single d => [TopicClause.eq ⟨i + 1, d⟩]
  | TopicPos.list ds =>
    [TopicClause.anyOf (ds.filterMap (fun d? => d?.map (fun d => (⟨i + 1, d⟩ : TopicEq))))]

def compileFrom (i : Nat) : List TopicPos → List TopicClause
  | [] => []
  | t :: ts => compilePos i t ++ compileFrom (i + 1) ts

def compileTopics : Option (List TopicPos) → Option (List TopicClause)
  | none => none
  | some ts => if ts.isEmpty then none else some (compileFrom 0 ts)

/-- SQL semantics of one compiled equality: `e.topics[slot] = digest`,
with the out-of-range (SQL `NULL`) comparison filtering the row out.
The event's topic array is 1-based in the store, so slot `s` is index
`s - 1` of the Lean list. -/
def evalEq (topics : List Nat) (e : TopicEq) : Bool :=
  topics.get? (e.slot - 1) == some e.digest

def evalClause (topics : List Nat) : TopicClause → Bool
  | TopicClause.eq e => evalEq topics e
  | TopicClause.anyOf es => es.any (evalEq topics)

/-- A `none` compilation result is the distinct no-constraint signal
(`eth_getLogs` pushes no clause for it); `some cs` conjoins `cs`. -/
def matchesCompiled (c : Option (List TopicClause)) (topics : List Nat) : Bool :=
  match c with
  | none => true
  | some cs => cs.all (evalClause topics)

/-- Spec-side per-position predicate, following the spec's words: a
wildcard contributes no constraint; a single digest requires slot
`i + 1` (list index `i`) to equal it; a candidate list is the OR of the
equalities (a `null` candidate contributes nothing). -/
def specPosMatch (topics : List Nat) (i : Nat) : TopicPos → Bool
  | TopicPos.wildcard => true
  | TopicPos.single d => topics.get? i == some d
  | TopicPos.list ds =>
    ds.any (fun d? =>
      match d? with
      | none => false
      | some d => topics.get? i == some d)

/-- Spec-side filter predicate: the AND over positions, position `i`
binding topic slot `i + 1`. -/
def specMatchFrom (topics : List Nat) (i : Nat) : List TopicPos → Bool
  | [] => true
  | t :: ts => specPosMatch topics i t && specMatchFrom topics (i + 1) ts

/-! ## Filter endpoints (database.ts:137-179, 338-345)

The store state visible to these endpoints is the `filter` table (id and
kind columns; the other columns are irrelevant here) together with the
row sets produced by the stored procedures `eth_getFilterChanges_block`/
`_event`, `eth_getFilterLogs_block`/`_event` and `eth_uninstallFilter`,
which are kept abstract (uninterpreted functions of the id): the claims
under verification do not depend on their contents.  Each endpoint
returns its result (or the thrown JavaScript/store error) paired with
the number of store round-trips it performed. -/

structure FilterStore where
  filters : List (Int × String)
  changesBlock : Int → List Nat
  changesEvent : Int → List Nat
  logsBlock : Int → List Nat
  logsEvent : Int → List Nat
  uninstallFound : Int → Bool

/-- Error raised by the store when `parseInt` produced `NaN` and the code
nevertheless shipped it as a `bigint` parameter (`$1::bigint` rejects the
serialized `NaN`). -/
def pgNaNErr : String := "invalid input syntax for type bigint: NaN"

/-- Error raised by the JavaScript destructuring `rows: [{ type }]` when
the filter-table lookup returns zero rows: `rows[0]` is `undefined` and
destructuring it throws a `TypeError`. -/
def destructureErr : String := "TypeError: cannot destructure property of undefined"

/-- The `type` column of the filter rows with the given id
(`sql.select('type').from('filter').where({id})`); a `NaN` id never
reaches row retrieval (the store rejects the parameter). -/
def lookupFilterType (st : FilterStore) (i : Int) : List String :=
  (st.filters.filter (fun p => p.1 == i)).map Prod.snd

def eth_getFilterChanges (st : FilterStore) (filterID : String) :
    Except String (List Nat) × Nat :=
  match jsParseIntHex filterID with
  | none => (Except.error pgNaNErr, 1)
  | some i =>
    if i == 0 then (Except.ok [], 0)
    else
      match lookupFilterType st i with
      | [] => (Except.error destructureErr, 1)
      | ty :: _ =>
        if ty == "block" then (Except.ok (st.changesBlock i), 2)
        else if ty == "event" then (Except.ok (st.changesEvent i), 2)
        else (Except.ok [], 1)

def eth_getFilterLogs (st : FilterStore) (filterID : String) :
    Except String (List Nat) × Nat :=
  match jsParseIntHex filterID with
  | none => (Except.error pgNaNErr, 1)
  | some i =>
    if i == 0 then (Except.ok [], 0)
    else
      match lookupFilterType st i with
      | [] => (Except.error destructureErr, 1)
      | ty :: _ =>
        if ty == "block" then (Except.ok (st.logsBlock i), 2)
        else if ty == "event" then (Except.ok (st.logsEvent i), 2)
        else (Except.ok [], 1)

def eth_uninstallFilter (st : FilterStore) (filterID : String) :
    Except String Bool × Nat :=
  match jsParseIntHex filterID with
  | none => (Except.error pgNaNErr, 1)
  | some i =>
    if i == 0 then (Except.ok true, 0)
    else (Except.ok (st.uninstallFound i), 1)

def emptyFilterStore : FilterStore :=
  ⟨[], fun _ => [], fun _ => [], fun _ => [], fun _ => [], fun _ => true⟩

/-! ## Single-item lookups (database.ts:85-100, 268-279)

Modelled from the spec: the stored SQL procedures `eth_getBlockByHash`
and `eth_getTransactionByHash` live in the repository's database schema,
which is not under `src/`; per spec section 6 the relational store's
`execute` hands back the set of matching rows, so an absent target
yields zero rows (`Except.ok []`) and a store failure is an exception
(`Except.error`).  Row contents are opaque. -/

structure QueryStore where
  blockRows : Nat → Except String (List Nat)
  txRows : Nat → Except String (List Nat)

/-- JavaScript value returned to the RPC dispatcher: `null`, a JSON
array, or a single JSON object. -/
inductive JsValue where
  | nullV
  | arr (rows : List Nat)
  | obj (row : Nat)
deriving DecidableEq

/-- `eth_getBlockByHash` body: on any thrown store error the `catch`
returns `null`; otherwise the result is `exportJSON(rows.map(...))` —
the (possibly empty) array of rows, not a single object. -/
def eth_getBlockByHash (st : QueryStore) (blockHash : Nat) : JsValue :=
  match st.blockRows blockHash with
  | Except.error _ => JsValue.nullV
  | Except.ok rows => JsValue.arr rows

/-- `eth_getTransactionByHash` body: store errors are caught to `null`,
zero rows return `null`, otherwise the first row is returned. -/
def eth_getTransactionByHash (st : QueryStore) (transactionHash : Nat) : JsValue :=
  match st.txRows transactionHash with
  | Except.error _ => JsValue.nullV
  | Except.ok [] => JsValue.nullV
  | Except.ok (r :: _) => JsValue.obj r

def emptyQueryStore : QueryStore :=
  ⟨fun _ => Except.ok [], fun _ => Except.ok []⟩

/-! ## `eth_getLogs` block constraints (database.ts:181-196)

The handler first reads the store's current maximum height, then either
pins the exact block hash (EIP-234) or resolves `fromBlock`/`toBlock`
with `resolveBlockSpec`; a resolved bound is pushed only when truthy
(JavaScript: `if (fromBlock)` — so a bound of `0` pushes nothing). -/

inductive LogsCond where
  | hashEq (h : Nat)
  | gte (n : Int)
  | lte (n : Int)
deriving DecidableEq

def getLogsWhere (latestBlockID : Int) (blockHash : Option Nat)
    (fromBlock toBlock : Option String) : Except String (List LogsCond) :=
  match blockHash with
  | some h => Except.ok [LogsCond.hashEq h]
  | none => do
    let f ← resolveBlockSpec latestBlockID fromBlock
    let t ← resolveBlockSpec latestBlockID toBlock
    pure ((if f == 0 then [] else [LogsCond.gte f]) ++
          (if t == 0 then [] else [LogsCond.lte t]))

/-- Whether a block of height `id` and hash `h` satisfies one pushed
condition. -/
def evalLogsCond (id : Int) (h : Nat) : LogsCond → Bool
  | LogsCond.hashEq h2 => h == h2
  | LogsCond.gte n => decide (n ≤ id)
  | LogsCond.lte n => decide (id ≤ n)

/-! ## Block indexer (indexer.ts:28-90)

The store is projected to the list of recorded block heights (the
`id` column of the `block` table), in insertion order; the other
inserted columns do not bear on the height claims.  The upstream
`engine.getBlock` is a fetch oracle `fetch h attempt`: `none` models an
`Err` proxy (block not yet produced), `some b` a successful fetch.
`indexBlockFrom` is the retry loop of `indexBlock` with an explicit
fuel bound on the number of attempts observed (the real loop is
unbounded; fuel exhaustion models an observation that ends while the
loop is still polling). -/

structure Block where
  number : Nat
  hash : Nat

def fetchOf (chain : Nat → Block) (failures : Nat → Nat) : Nat → Nat → Option Block :=
  fun h attempt => if attempt < failures h then none else some (chain h)

def indexBlockFrom (fetch : Nat → Option Block) : Nat → Nat → Option Block
  | _, 0 => none
  | attempt, fuel + 1 =>
    match fetch attempt with
    | some b => some b
    | none => indexBlockFrom fetch (attempt + 1) fuel

/-- The `start` loop: ingest `n` blocks beginning at height `h`,
appending each successfully fetched block's `number` to the store
(`sql.insert('block', { id: block.number, ... })`), then advancing to
`h + 1`.  If a height's retry loop is still polling when observation
ends, nothing further is recorded. -/
def runIndexer (fetch : Nat → Nat → Option Block) (fuel : Nat → Nat) :
    Nat → Nat → List Nat → List Nat
  | 0, _, store => store
  | n + 1, h, store =>
    match indexBlockFrom (fetch h) 0 (fuel h) with
    | none => store
    | some b => runIndexer fetch fuel n (h + 1) (store ++ [b.number])

/-- `SELECT MAX(id) FROM block`: `none` on an empty table. -/
def storeMax : List Nat → Option Nat
  | [] => none
  | x :: xs =>
    some (match storeMax xs with
          | none => x
          | some m => max x m)

/-- Startup height (`indexer.ts:43-46`): `maxID === null ? 0 : maxID + 1`. -/
def resumeHeight (store : List Nat) : Nat :=
  match storeMax store with
  | none => 0
  | some m => m + 1

/-- Observable actions of `indexBlock`: a fetch request for a height, a
`setTimeout`-based wait in milliseconds, and the persist of a block row. -/
inductive Ev where
  | fetch (h : Nat)
  | sleep (ms : Nat)
  | persist (h : Nat)
deriving DecidableEq

/-- Fetch oracle that fails exactly `k` times before producing `b`. -/
def fetchK (k : Nat) (b : Block) : Nat → Option Block :=
  fun attempt => if attempt < k then none else some b

/-- Trace of `indexBlock` for target height `h`: each failed attempt is a
fetch followed by a 100 ms wait (`setTimeout(resolve, 100)`), the
successful attempt is a fetch followed by the persist of the block. -/
def indexBlockTrace (fetch : Nat → Option Block) (h : Nat) : Nat → Nat → List Ev
  | _, 0 => []
  | attempt, fuel + 1 =>
    match fetch attempt with
    | some b => [Ev.fetch h, Ev.persist b.number]
    | none => Ev.fetch h :: Ev.sleep 100 :: indexBlockTrace fetch h (attempt + 1) fuel

/-! ## Topic-compiler lemmas -/

theorem anyOf_filterMap (i : Nat) (topics : List Nat) (ds : List (Option Nat)) :
    (ds.filterMap (fun d? => d?.map (fun d => (⟨i + 1, d⟩ : TopicEq)))).any (evalEq topics) =
      ds.any (fun d? =>
        match d? with
        | none => false
        | some d => topics.get? i == some d) := by
  induction ds with
  | nil => rfl
  | cons d? ds ih =>
    cases d? with
    | none => simpa using ih
    | some d =>
      simp only [List.filterMap_cons, Option.map_some', List.any_cons, ih]
      simp [evalEq]

theorem compilePos_all (i : Nat) (topics : List Nat) (t : TopicPos) :
    (compilePos i t).all (evalClause topics) = specPosMatch topics i t := by
  cases t with
  | wildcard => rfl
  | single d => simp [compilePos, specPosMatch, evalClause, evalEq]
  | list ds =>
    simp only [compilePos, specPosMatch, List.all_cons, List.all_nil, Bool.and_true,
      evalClause]
    exact anyOf_filterMap i topics ds

theorem compileFrom_all (topics : List Nat) :
    ∀ (ts : List TopicPos) (i : Nat),
      (compileFrom i ts).all (evalClause topics) = specMatchFrom topics i ts := by
  intro ts
  induction ts with
  | nil => intro i; rfl
  | cons t ts ih =>
    intro i
    simp only [compileFrom, specMatchFrom, List.all_append, compilePos_all, ih]

theorem compileFrom_append (l1 l2 : List TopicPos) :
    ∀ i, compileFrom i (l1 ++ l2) = compileFrom i l1 ++ compileFrom (i + l1.length) l2 := by
  induction l1 with
  | nil => intro i; simp [compileFrom]
  | cons t l1 ih =>
    intro i
    show compilePos i t ++ compileFrom (i + 1) (l1 ++ l2) =
      (compilePos i t ++ compileFrom (i + 1) l1) ++ compileFrom (i + (t :: l1).length) l2
    rw [ih (i + 1), List.append_assoc]
    have hlen : i + 1 + l1.length = i + (t :: l1).length := by
      simp only [List.length_cons]; omega
    rw [hlen]

/-- C2: for every topic filter, the compiled predicate is the AND over
positions of the per-position constraints (wildcard: none; single digest:
slot `i + 1` equals it; candidate list: OR of the equalities), and on the
spec's example `[A, null, [B, C]]` it accepts `[A, X, B]` and `[A, Y, C]`
and rejects `[Z, Y, B]` when `Z ≠ A`. -/
theorem c2_topic_filter_semantics (A B C X Y Z : Nat) (hZ : Z ≠ A) :
    (∀ (ts : List TopicPos) (topics : List Nat),
        matchesCompiled (compileTopics (some ts)) topics = specMatchFrom topics 0 ts) ∧
    matchesCompiled
      (compileTopics (some [TopicPos.single A, TopicPos.wildcard,
        TopicPos.list [some B, some C]])) [A, X, B] = true ∧
    matchesCompiled
      (compileTopics (some [TopicPos.single A, TopicPos.wildcard,
        TopicPos.list [some B, some C]])) [A, Y, C] = true ∧
    matchesCompiled
      (compileTopics (some [TopicPos.single A, TopicPos.wildcard,
        TopicPos.list [some B, some C]])) [Z, Y, B] = false := by
  have hgen : ∀ (ts : List TopicPos) (topics : List Nat),
      matchesCompiled (compileTopics (some ts)) topics = specMatchFrom topics 0 ts := by
    intro ts topics
    cases ts with
    | nil => rfl
    | cons t ts =>
      simp only [compileTopics, List.isEmpty_cons, if_false, Bool.false_eq_true,
        matchesCompiled]
      exact compileFrom_all topics (t :: ts) 0
  refine ⟨hgen, ?_, ?_, ?_⟩ <;>
    simp [hgen, specMatchFrom, specPosMatch, hZ]

theorem c2_topic_filter_semantics_witness :
    (∀ (ts : List TopicPos) (topics : List Nat),
        matchesCompiled (compileTopics (some ts)) topics = specMatchFrom topics 0 ts) ∧
    matchesCompiled
      (compileTopics (some [TopicPos.single 1, TopicPos.wildcard,
        TopicPos.list [some 2, some 3]])) [1, 7, 2] = true ∧
    matchesCompiled
      (compileTopics (some [TopicPos.single 1, TopicPos.wildcard,
        TopicPos.list [some 2, some 3]])) [1, 8, 3] = true ∧
    matchesCompiled
      (compileTopics (some [TopicPos.single 1, TopicPos.wildcard,
        TopicPos.list [some 2, some 3]])) [9, 8, 2] = false :=
  c2_topic_filter_semantics 1 2 3 7 8 9 (by decide)

/-- C3: an absent or empty topic filter compiles to the distinct
no-constraint signal (`none`, matching every event), while a position
with an empty candidate list makes the compiled predicate reject every
event (an OR of zero alternatives). -/
theorem c3_empty_filter_and_empty_position :
    compileTopics none = none ∧
    compileTopics (some []) = none ∧
    (∀ topics, matchesCompiled none topics = true) ∧
    (∀ (pre post : List TopicPos) (topics : List Nat),
       matchesCompiled (compileTopics (some (pre ++ TopicPos.list [] :: post)))
         topics = false) := by
  refine ⟨rfl, rfl, fun _ => rfl, ?_⟩
  intro pre post topics
  have hne : (pre ++ TopicPos.list [] :: post).isEmpty = false := by
    cases pre <;> rfl
  simp only [compileTopics, hne, Bool.false_eq_true, if_false, matchesCompiled]
  rw [compileFrom_append pre (TopicPos.list [] :: post) 0]
  simp [compileFrom, compilePos, evalClause]

/-! ## parseInt round-trip lemmas -/

theorem hexDigitVal_natToHexDigitChar (d : Nat) (hd : d < 16) :
    hexDigitVal (natToHexDigitChar d) = some d := by
  interval_cases d <;> decide

theorem natToHexDigitChar_not_ws (d : Nat) (hd : d < 16) :
    isJsWhitespace (natToHexDigitChar d) = false := by
  interval_cases d <;> decide

theorem mem_natToHexDigitsAux :
    ∀ (fuel n : Nat) (c : Char), c ∈ natToHexDigitsAux fuel n →
      ∃ d, d < 16 ∧ c = natToHexDigitChar d := by
  intro fuel
  induction fuel with
  | zero => intro n c hc; simp [natToHexDigitsAux] at hc
  | succ fuel ih =>
    intro n c hc
    by_cases hn : n < 16
    · simp only [natToHexDigitsAux, if_pos hn, List.mem_singleton] at hc
      exact ⟨n, hn, hc⟩
    · simp only [natToHexDigitsAux, if_neg hn, List.mem_append,
        List.mem_singleton] at hc
      rcases hc with hc | hc
      · exact ih _ c hc
      · exact ⟨n % 16, Nat.mod_lt n (by omega), hc⟩

theorem dropWhileNoWs (l : List Char) (h : ∀ c ∈ l, isJsWhitespace c = false) :
    l.dropWhile isJsWhitespace = l := by
  cases l with
  | nil => rfl
  | cons a t => simp [List.dropWhile_cons, h a (by simp)]

theorem trimChars_eq_self (l : List Char) (h : ∀ c ∈ l, isJsWhitespace c = false) :
    trimChars l = l := by
  unfold trimChars
  rw [dropWhileNoWs l h, dropWhileNoWs _ (by intro c hc; exact h c (List.mem_reverse.mp hc)),
    List.reverse_reverse]

theorem takeHexDigits_encAux :
    ∀ (fuel n : Nat), n < fuel → ∀ (rest : List Char),
      takeHexDigits (natToHexDigitsAux fuel n ++ rest) =
        natToHexValsAux fuel n ++ takeHexDigits rest := by
  intro fuel
  induction fuel with
  | zero => intro n hn; omega
  | succ fuel ih =>
    intro n hn rest
    by_cases h16 : n < 16
    · simp only [natToHexDigitsAux, natToHexValsAux, if_pos h16, List.cons_append,
        List.nil_append, takeHexDigits, hexDigitVal_natToHexDigitChar n h16]
    · have hdiv : n / 16 < n := Nat.div_lt_self (by omega) (by omega)
      have hfuel : n / 16 < fuel := by omega
      simp only [natToHexDigitsAux, natToHexValsAux, if_neg h16, List.append_assoc,
        List.cons_append, List.nil_append]
      rw [ih (n / 16) hfuel]
      simp only [takeHexDigits, hexDigitVal_natToHexDigitChar (n % 16) (Nat.mod_lt n (by omega))]

theorem hexVal_append_singleton (vs : List Nat) (m : Nat) :
    hexVal (vs ++ [m]) = 16 * hexVal vs + m := by
  unfold hexVal
  rw [List.foldl_append]
  rfl

theorem hexVal_natToHexValsAux :
    ∀ (fuel n : Nat), n < fuel → hexVal (natToHexValsAux fuel n) = n := by
  intro fuel
  induction fuel with
  | zero => intro n hn; omega
  | succ fuel ih =>
    intro n hn
    by_cases h16 : n < 16
    · simp [natToHexValsAux, h16, hexVal]
    · have hdiv : n / 16 < n := Nat.div_lt_self (by omega) (by omega)
      simp only [natToHexValsAux, if_neg h16]
      rw [hexVal_append_singleton, ih (n / 16) (by omega)]
      omega

theorem natToHexValsAux_ne_nil (fuel n : Nat) (h : n < fuel) :
    natToHexValsAux fuel n ≠ [] := by
  cases fuel with
  | zero => omega
  | succ fuel =>
    by_cases h16 : n < 16
    · simp [natToHexValsAux, h16]
    · simp [natToHexValsAux, h16]

theorem jsParseIntHex_natToHex (n : Nat) (hn : n < 2 ^ 53) :
    jsParseIntHex (natToHex n) = some (n : Int) := by
  have hdata : (natToHex n).data = '0' :: 'x' :: natToHexDigits n := rfl
  have hnows : ∀ c ∈ (natToHex n).data, isJsWhitespace c = false := by
    rw [hdata]
    intro c hc
    rcases hc with _ | ⟨_, hc⟩
    · decide
    · rcases hc with _ | ⟨_, hc⟩
      · decide
      · obtain ⟨d, hd, rfl⟩ := mem_natToHexDigitsAux (n + 1) n c hc
        exact natToHexDigitChar_not_ws d hd
  unfold jsParseIntHex
  rw [trimChars_eq_self _ hnows, hdata]
  show (let ds := takeHexDigits (natToHexDigits n);
        if ds.isEmpty then none
        else some (if false then -((roundToDouble (hexVal ds) : Nat) : Int)
                   else ((roundToDouble (hexVal ds) : Nat) : Int))) = some (n : Int)
  have henc : takeHexDigits (natToHexDigits n) = natToHexValsAux (n + 1) n := by
    have := takeHexDigits_encAux (n + 1) n (by omega) []
    simpa [natToHexDigits, takeHexDigits] using this
  rw [henc]
  have hval : hexVal (natToHexValsAux (n + 1) n) = n :=
    hexVal_natToHexValsAux (n + 1) n (by omega)
  have hne : (natToHexValsAux (n + 1) n).isEmpty = false := by
    have := natToHexValsAux_ne_nil (n + 1) n (by omega)
    cases hl : natToHexValsAux (n + 1) n with
    | nil => exact absurd hl this
    | cons a t => rfl
  have hr : roundToDouble n = n := by unfold roundToDouble; rw [if_pos hn]
  simp only [hne, Bool.false_eq_true, if_false, hval, hr]

theorem natToHex_ne_earliest (n : Nat) : natToHex n ≠ "earliest" := by
  intro h
  have h2 := congrArg String.data h
  simp [natToHex] at h2

theorem natToHex_ne_latest (n : Nat) : natToHex n ≠ "latest" := by
  intro h
  have h2 := congrArg String.data h
  simp [natToHex] at h2

theorem natToHex_ne_pending (n : Nat) : natToHex n ≠ "pending" := by
  intro h
  have h2 := congrArg String.data h
  simp [natToHex] at h2

/-- C4 counterexample: `"0xffz"` is not a well-formed integer, yet
`resolveBlockSpec` does not fail on it — `parseInt` keeps the longest
leading hex-digit run (`ff`) and resolution succeeds with 255. -/
theorem c4_counterexample : resolveBlockSpec 7 (some "0xffz") = Except.ok 255 := rfl

/-- C4 (amended): `earliest` resolves to 0, `latest` and `pending` to the
store's maximum height, and a canonically written hex literal below
`2 ^ 53` resolves to exactly that integer; resolution fails with the
descriptive error only for literals with no leading hex-digit run
(`parseInt` returns `NaN`) — other malformed literals resolve to the
value of their longest leading hex-digit run. -/
theorem c4_block_spec_resolution (latest : Int) (n : Nat) (hn : n < 2 ^ 53)
    (s : String) (hs : jsParseIntHex s = none)
    (h1 : s ≠ "earliest") (h2 : s ≠ "latest") (h3 : s ≠ "pending") :
    resolveBlockSpec latest (some "earliest") = Except.ok 0 ∧
    resolveBlockSpec latest (some "latest") = Except.ok latest ∧
    resolveBlockSpec latest (some "pending") = Except.ok latest ∧
    resolveBlockSpec latest (some (natToHex n)) = Except.ok (n : Int) ∧
    resolveBlockSpec latest (some s) = Except.error ("invalid block ID: " ++ s) := by
  refine ⟨rfl, rfl, rfl, ?_, ?_⟩
  · show (if natToHex n = "earliest" then Except.ok 0
      else if natToHex n = "latest" then Except.ok latest
      else if natToHex n = "pending" then Except.ok latest
      else
        match jsParseIntHex (natToHex n) with
        | none => Except.error ("invalid block ID: " ++ natToHex n)
        | some blockID => Except.ok blockID) = Except.ok (n : Int)
    rw [if_neg (natToHex_ne_earliest n), if_neg (natToHex_ne_latest n),
      if_neg (natToHex_ne_pending n), jsParseIntHex_natToHex n hn]
  · show (if s = "earliest" then Except.ok 0
      else if s = "latest" then Except.ok latest
      else if s = "pending" then Except.ok latest
      else
        match jsParseIntHex s with
        | none => Except.error ("invalid block ID: " ++ s)
        | some blockID => Except.ok blockID) = Except.error ("invalid block ID: " ++ s)
    rw [if_neg h1, if_neg h2, if_neg h3, hs]

theorem c4_block_spec_resolution_witness :
    resolveBlockSpec 9 (some "earliest") = Except.ok 0 ∧
    resolveBlockSpec 9 (some "latest") = Except.ok 9 ∧
    resolveBlockSpec 9 (some "pending") = Except.ok 9 ∧
    resolveBlockSpec 9 (some (natToHex 255)) = Except.ok (255 : Int) ∧
    resolveBlockSpec 9 (some "zz") = Except.error ("invalid block ID: " ++ "zz") :=
  c4_block_spec_resolution 9 255 (by decide) "zz" (by decide)
    (by decide) (by decide) (by decide)

/-- C5: filter id 0 short-circuits `eth_getFilterChanges` and
`eth_getFilterLogs` to an empty result with zero store round-trips, as
claimed; but a well-formed id naming no existing filter does not return
an empty sequence — the destructuring `rows: [{ type }]` of the empty
lookup result throws a `TypeError` after one store access, contradicting
the claim's (and spec section 4.4's) "never a crash" requirement. -/
theorem c5_filter_id_zero_and_unknown :
    (∀ st : FilterStore,
       eth_getFilterChanges st "0x0" = (Except.ok [], 0) ∧
       eth_getFilterLogs st "0x0" = (Except.ok [], 0)) ∧
    eth_getFilterChanges emptyFilterStore "0x7" = (Except.error destructureErr, 1) ∧
    eth_getFilterLogs emptyFilterStore "0x7" = (Except.error destructureErr, 1) :=
  ⟨fun _ => ⟨rfl, rfl⟩, rfl, rfl⟩

/-- C6 counterexample: on a store with no matching rows (the block does
not exist), `eth_getBlockByHash` returns the empty array
`exportJSON(rows.map(...))`, which is not `null`. -/
theorem c6_counterexample :
    eth_getBlockByHash emptyQueryStore 42 = JsValue.arr [] ∧
    JsValue.arr [] ≠ JsValue.nullV :=
  ⟨rfl, by decide⟩

/-- C6 (amended): when the target is absent (the store hands back zero
rows), `eth_getTransactionByHash` returns `null` but `eth_getBlockByHash`
returns an empty array rather than `null`; in neither endpoint is absence
surfaced as a thrown error (both catch store errors and return `null`,
and both are total functions into `JsValue`). -/
theorem c6_absent_target (st : QueryStore) (bh th : Nat) (e : String)
    (hb : st.blockRows bh = Except.ok []) (ht : st.txRows th = Except.ok [])
    (st2 : QueryStore) (hb2 : st2.blockRows bh = Except.error e)
    (ht2 : st2.txRows th = Except.error e) :
    eth_getBlockByHash st bh = JsValue.arr [] ∧
    eth_getTransactionByHash st th = JsValue.nullV ∧
    eth_getBlockByHash st2 bh = JsValue.nullV ∧
    eth_getTransactionByHash st2 th = JsValue.nullV := by
  unfold eth_getBlockByHash eth_getTransactionByHash
  rw [hb, ht, hb2, ht2]
  exact ⟨rfl, rfl, rfl, rfl⟩

theorem c6_absent_target_witness :
    eth_getBlockByHash emptyQueryStore 42 = JsValue.arr [] ∧
    eth_getTransactionByHash emptyQueryStore 42 = JsValue.nullV ∧
    eth_getBlockByHash ⟨fun _ => Except.error "down", fun _ => Except.error "down"⟩ 42 =
      JsValue.nullV ∧
    eth_getTransactionByHash ⟨fun _ => Except.error "down", fun _ => Except.error "down"⟩ 42 =
      JsValue.nullV :=
  c6_absent_target emptyQueryStore 42 42 "down" rfl rfl
    ⟨fun _ => Except.error "down", fun _ => Except.error "down"⟩ rfl rfl

/-- C7 counterexample: for the malformed filter id `"zz"` (`parseInt`
yields `NaN`) none of the three filter calls fails fast before touching
the store — each performs one store round-trip with the `NaN` id, and
the resulting failure is the store's `bigint` rejection, not a prior
validation error (`eth_uninstallFilter` would even return successfully
were the parameter accepted). -/
theorem c7_counterexample :
    eth_uninstallFilter emptyFilterStore "zz" = (Except.error pgNaNErr, 1) ∧
    (eth_uninstallFilter emptyFilterStore "zz").2 ≠ 0 ∧
    eth_getFilterChanges emptyFilterStore "zz" = (Except.error pgNaNErr, 1) ∧
    eth_getFilterLogs emptyFilterStore "zz" = (Except.error pgNaNErr, 1) :=
  ⟨rfl, by decide, rfl, rfl⟩

/-- C7 (amended): a filter id that `parseInt` cannot parse is not
rejected by any validation — the `NaN` id is passed into a store query
(exactly one store access) by each of `eth_getFilterChanges`,
`eth_getFilterLogs` and `eth_uninstallFilter`, and the failure surfaced
is the store's, not a fail-fast descriptive error raised before store
access. -/
theorem c7_nan_filter_id (st : FilterStore) (s : String)
    (hs : jsParseIntHex s = none) :
    eth_getFilterChanges st s = (Except.error pgNaNErr, 1) ∧
    eth_getFilterLogs st s = (Except.error pgNaNErr, 1) ∧
    eth_uninstallFilter st s = (Except.error pgNaNErr, 1) := by
  unfold eth_getFilterChanges eth_getFilterLogs eth_uninstallFilter
  rw [hs]
  exact ⟨rfl, rfl, rfl⟩

theorem c7_nan_filter_id_witness :
    eth_getFilterChanges emptyFilterStore "zz" = (Except.error pgNaNErr, 1) ∧
    eth_getFilterLogs emptyFilterStore "zz" = (Except.error pgNaNErr, 1) ∧
    eth_uninstallFilter emptyFilterStore "zz" = (Except.error pgNaNErr, 1) :=
  c7_nan_filter_id emptyFilterStore "zz" (by decide)

/-- C9 counterexample: the block-height literal `0x20000000000001`
(2 ^ 53 + 1) resolves through `parseInt` to 2 ^ 53 — a 53-bit-limited
double, not an unbounded integer — and the two distinct heights
2 ^ 53 and 2 ^ 53 + 1 become indistinguishable on the request path. -/
theorem c9_counterexample :
    resolveBlockSpec 0 (some "0x20000000000001") = Except.ok 9007199254740992 ∧
    (9007199254740993 : Int) ≠ 9007199254740992 ∧
    jsParseIntHex "0x20000000000000" = jsParseIntHex "0x20000000000001" :=
  ⟨rfl, by decide, by decide⟩

/-- C9 (amended): request-side numeric handling is exact only below
`2 ^ 53`: a hex literal below that bound parses to exactly its value,
while `2 ^ 53 + 1` is rounded to `2 ^ 53` by the double-precision
`parseInt` used for block specifiers and filter ids. -/
theorem c9_numeric_precision (n : Nat) (hn : n < 2 ^ 53) :
    jsParseIntHex (natToHex n) = some (n : Int) ∧
    jsParseIntHex "0x20000000000001" = some ((2 : Int) ^ 53) :=
  ⟨jsParseIntHex_natToHex n hn, by decide⟩

theorem c9_numeric_precision_witness :
    jsParseIntHex (natToHex 255) = some (255 : Int) ∧
    jsParseIntHex "0x20000000000001" = some ((2 : Int) ^ 53) :=
  c9_numeric_precision 255 (by decide)

/-- C10: in `eth_getLogs` without a `blockHash`, an absent or `null`
`fromBlock`/`toBlock` resolves to the store's current maximum height, so
a request with no block constraints at all is scoped to exactly the
single latest block: among heights `0 ≤ id ≤ latest`, the pushed
conditions accept precisely `id = latest`. -/
theorem c10_default_range_is_latest (latest id : Int) (bh : Nat)
    (h0 : 0 ≤ id) (h1 : id ≤ latest) :
    resolveBlockSpec latest none = Except.ok latest ∧
    ∃ conds, getLogsWhere latest none none none = Except.ok conds ∧
      (conds.all (evalLogsCond id bh) = true ↔ id = latest) := by
  refine ⟨rfl, ?_⟩
  have hw : getLogsWhere latest none none none =
      Except.ok ((if latest == 0 then [] else [LogsCond.gte latest]) ++
                 (if latest == 0 then [] else [LogsCond.lte latest])) := rfl
  by_cases hl : latest = 0
  · refine ⟨[], ?_, ?_⟩
    · rw [hw, hl]; rfl
    · simp only [List.all_nil, true_iff]
      omega
  · have hbeq : (latest == 0) = false := by
      simp [hl]
    refine ⟨[LogsCond.gte latest, LogsCond.lte latest], ?_, ?_⟩
    · rw [hw, hbeq]; rfl
    · simp only [List.all_cons, List.all_nil, Bool.and_true, evalLogsCond,
        Bool.and_eq_true, decide_eq_true_eq]
      omega

theorem c10_default_range_is_latest_witness :
    resolveBlockSpec 5 none = Except.ok 5 ∧
    ∃ conds, getLogsWhere 5 none none none = Except.ok conds ∧
      (conds.all (evalLogsCond 5 0) = true ↔ (5 : Int) = 5) :=
  c10_default_range_is_latest 5 5 0 (by decide) (by decide)

/-! ## Indexer lemmas -/

theorem indexBlockFrom_k_failures (k : Nat) (b : Block) :
    ∀ (fuel attempt : Nat), k ≤ attempt + fuel →
      indexBlockFrom (fun a => if a < k then none else some b) attempt (fuel + 1) = some b := by
  intro fuel
  induction fuel with
  | zero =>
    intro attempt h
    have : ¬ attempt < k := by omega
    simp [indexBlockFrom, this]
  | succ fuel ih =>
    intro attempt h
    by_cases ha : attempt < k
    · show (match (if attempt < k then none else some b) with
        | some b => some b
        | none => indexBlockFrom (fun a => if a < k then none else some b)
            (attempt + 1) (fuel + 1)) = some b
      rw [if_pos ha]
      exact ih (attempt + 1) (by omega)
    · show (match (if attempt < k then none else some b) with
        | some b => some b
        | none => indexBlockFrom (fun a => if a < k then none else some b)
            (attempt + 1) (fuel + 1)) = some b
      rw [if_neg ha]

theorem runIndexer_range' (chain : Nat → Block) (failures : Nat → Nat) :
    ∀ (n h : Nat) (store : List Nat),
      (∀ x, h ≤ x → x < h + n → (chain x).number = x) →
      runIndexer (fetchOf chain failures) (fun x => failures x + 1) n h store =
        store ++ List.range' h n := by
  intro n
  induction n with
  | zero => intro h store _; simp [runIndexer, List.range']
  | succ n ih =>
    intro h store hnum
    have hbl : indexBlockFrom (fetchOf chain failures h) 0 (failures h + 1) =
        some (chain h) :=
      indexBlockFrom_k_failures (failures h) (chain h) (failures h) 0 (by omega)
    show (match indexBlockFrom (fetchOf chain failures h) 0 (failures h + 1) with
      | none => store
      | some b => runIndexer (fetchOf chain failures) (fun x => failures x + 1) n
          (h + 1) (store ++ [b.number])) = store ++ List.range' h (n + 1)
    rw [hbl]
    show runIndexer (fetchOf chain failures) (fun x => failures x + 1) n (h + 1)
      (store ++ [(chain h).number]) = store ++ List.range' h (n + 1)
    rw [ih (h + 1) (store ++ [(chain h).number])
      (fun x hx1 hx2 => hnum x (by omega) (by omega))]
    rw [hnum h (by omega) (by omega)]
    rw [List.append_assoc]
    rfl

theorem storeMax_append_singleton (a : Nat) :
    ∀ (l : List Nat), storeMax (l ++ [a]) =
      some (match storeMax l with
            | none => a
            | some m => max m a) := by
  intro l
  induction l with
  | nil => rfl
  | cons x xs ih =>
    show storeMax (x :: (xs ++ [a])) = _
    rw [storeMax, ih]
    cases hxs : storeMax xs with
    | none => simp [storeMax, hxs, Nat.max_comm]
    | some m =>
      simp only [storeMax, hxs]
      rw [Nat.max_assoc]

theorem storeMax_range : ∀ N : Nat,
    storeMax (List.range N) = if N = 0 then none else some (N - 1) := by
  intro N
  induction N with
  | zero => rfl
  | succ N ih =>
    rw [List.range_succ, storeMax_append_singleton N (List.range N), ih]
    by_cases hN : N = 0
    · subst hN; rfl
    · rw [if_neg hN, if_neg (by omega : ¬ N + 1 = 0)]
      show some (max (N - 1) N) = some (N + 1 - 1)
      congr 1
      omega

theorem resumeHeight_range (N : Nat) : resumeHeight (List.range N) = N := by
  unfold resumeHeight
  rw [storeMax_range N]
  by_cases hN : N = 0
  · subst hN; rfl
  · rw [if_neg hN]
    show N - 1 + 1 = N
    omega

theorem range'_one_append (s m n : Nat) :
    List.range' s m ++ List.range' (s + m) n = List.range' s (m + n) := by
  induction m generalizing s with
  | zero => simp [List.range']
  | succ m ih =>
    show s :: (List.range' (s + 1) m ++ List.range' (s + (m + 1)) n) = _
    rw [show s + (m + 1) = (s + 1) + m by omega, ih (s + 1),
      show m + 1 + n = (m + n) + 1 by omega]
    rfl

/-- C1: starting from an empty store, a finite run of the indexer that
ingests `N` blocks records exactly the heights `0 .. N-1` (the list
`List.range N`: strictly increasing, gap-free, duplicate-free),
whatever the per-height retry counts `failures`; on restart the indexer
resumes at max recorded height + 1 (`0` on an empty store), which equals
`N`, and continuing for `M` more blocks from the resumed state extends
the record to exactly `0 .. N+M-1`, preserving the gap-free sequence. -/
theorem c1_indexer_heights (chain : Nat → Block) (failures : Nat → Nat) (N M : Nat)
    (hnum : ∀ h, h < N + M → (chain h).number = h) :
    runIndexer (fetchOf chain failures) (fun h => failures h + 1) N 0 [] =
      List.range N ∧
    resumeHeight (runIndexer (fetchOf chain failures) (fun h => failures h + 1) N 0 []) = N ∧
    resumeHeight ([] : List Nat) = 0 ∧
    runIndexer (fetchOf chain failures) (fun h => failures h + 1) M
      (resumeHeight (runIndexer (fetchOf chain failures) (fun h => failures h + 1) N 0 []))
      (runIndexer (fetchOf chain failures) (fun h => failures h + 1) N 0 []) =
      List.range (N + M) := by
  have hrun : runIndexer (fetchOf chain failures) (fun h => failures h + 1) N 0 [] =
      List.range N := by
    rw [runIndexer_range' chain failures N 0 []
      (fun x hx1 hx2 => hnum x (by omega))]
    rw [List.nil_append, List.range_eq_range']
  refine ⟨hrun, ?_, rfl, ?_⟩
  · rw [hrun, resumeHeight_range N]
  · rw [hrun, resumeHeight_range N]
    rw [runIndexer_range' chain failures M N (List.range N)
      (fun x hx1 hx2 => hnum x (by omega))]
    rw [List.range_eq_range', List.range_eq_range']
    have hap := range'_one_append 0 N M
    rw [Nat.zero_add] at hap
    exact hap

theorem c1_indexer_heights_witness :
    runIndexer (fetchOf (fun h => ⟨h, h⟩) (fun h => h % 3)) (fun h => h % 3 + 1) 3 0 [] =
      List.range 3 ∧
    resumeHeight (runIndexer (fetchOf (fun h => ⟨h, h⟩) (fun h => h % 3))
      (fun h => h % 3 + 1) 3 0 []) = 3 ∧
    resumeHeight ([] : List Nat) = 0 ∧
    runIndexer (fetchOf (fun h => ⟨h, h⟩) (fun h => h % 3)) (fun h => h % 3 + 1) 2
      (resumeHeight (runIndexer (fetchOf (fun h => ⟨h, h⟩) (fun h => h % 3))
        (fun h => h % 3 + 1) 3 0 []))
      (runIndexer (fetchOf (fun h => ⟨h, h⟩) (fun h => h % 3)) (fun h => h % 3 + 1) 3 0 []) =
      List.range (3 + 2) :=
  c1_indexer_heights (fun h => ⟨h, h⟩) (fun h => h % 3) 3 2 (fun _ _ => rfl)

theorem indexBlockTrace_fetchK (k : Nat) (b : Block) (h : Nat) :
    ∀ (d a : Nat), a + d = k →
      indexBlockTrace (fetchK k b) h a (d + 1) =
        (List.replicate d [Ev.fetch h, Ev.sleep 100]).flatten ++
          [Ev.fetch h, Ev.persist b.number] := by
  intro d
  induction d with
  | zero =>
    intro a ha
    have : ¬ a < k := by omega
    show (match fetchK k b a with
      | some b => [Ev.fetch h, Ev.persist b.number]
      | none => Ev.fetch h :: Ev.sleep 100 :: indexBlockTrace (fetchK k b) h (a + 1) 0) = _
    rw [show fetchK k b a = some b from by simp [fetchK, this]]
    rfl
  | succ d ih =>
    intro a ha
    have hak : a < k := by omega
    show (match fetchK k b a with
      | some b => [Ev.fetch h, Ev.persist b.number]
      | none => Ev.fetch h :: Ev.sleep 100 ::
          indexBlockTrace (fetchK k b) h (a + 1) (d + 1)) = _
    rw [show fetchK k b a = none from by simp [fetchK, hak]]
    rw [ih (a + 1) (by omega)]
    rw [List.replicate_succ, List.flatten_cons]
    rfl

/-- C8: when the upstream source keeps reporting height `h` as not yet
produced, `indexBlock` re-requests the same height after a fixed 100 ms
wait; for every number `k` of consecutive failures the trace is exactly
`k` repetitions of (fetch `h`, sleep 100 ms) followed by the successful
fetch of `h` and its persist — every fetch targets the same height `h`,
the only persist is of `h` itself, and the attempt is never abandoned
(the persist is reached for every `k`). -/
theorem c8_blocking_poll (h k : Nat) (b : Block) (hb : b.number = h) :
    indexBlockTrace (fetchK k b) h 0 (k + 1) =
      (List.replicate k [Ev.fetch h, Ev.sleep 100]).flatten ++
        [Ev.fetch h, Ev.persist h] ∧
    (∀ h', Ev.fetch h' ∈ indexBlockTrace (fetchK k b) h 0 (k + 1) → h' = h) ∧
    (∀ h', Ev.persist h' ∈ indexBlockTrace (fetchK k b) h 0 (k + 1) → h' = h) := by
  have htr : indexBlockTrace (fetchK k b) h 0 (k + 1) =
      (List.replicate k [Ev.fetch h, Ev.sleep 100]).flatten ++
        [Ev.fetch h, Ev.persist h] := by
    rw [indexBlockTrace_fetchK k b h k 0 (by omega), hb]
  refine ⟨htr, ?_, ?_⟩
  · intro h' hmem
    rw [htr] at hmem
    simp at hmem
    rcases hmem with ⟨l, ⟨_, rfl⟩, hm⟩ | hm
    · simpa using hm
    · exact hm
  · intro h' hmem
    rw [htr] at hmem
    simp at hmem
    rcases hmem with ⟨l, ⟨_, rfl⟩, hm⟩ | hm
    · simp at hm
    · exact hm

theorem c8_blocking_poll_witness :
    indexBlockTrace (fetchK 3 ⟨5, 77⟩) 5 0 (3 + 1) =
      (List.replicate 3 [Ev.fetch 5, Ev.sleep 100]).flatten ++
        [Ev.fetch 5, Ev.persist 5] ∧
    (∀ h', Ev.fetch h' ∈ indexBlockTrace (fetchK 3 ⟨5, 77⟩) 5 0 (3 + 1) → h' = 5) ∧
    (∀ h', Ev.persist h' ∈ indexBlockTrace (fetchK 3 ⟨5, 77⟩) 5 0 (3 + 1) → h' = 5) :=
  c8_blocking_poll 5 3 ⟨5, 77⟩ rfl
